import Mathlib

/-!
Verification of the canvas-with-llamaindex-composio repository against its
specification.  The development embeds:

* the canvas item data model (`src/src/components/canvas/GoogleSheetsButton.tsx`);
* the Google-Sheets synchronizer contract of the spec (the implementation
  `agent/sheets_sync.py` referenced by `GOOGLE_SHEETS_INTEGRATION.md` is not
  part of the shipped sources, so the synchronizer is modelled from the spec);
* the pitch-score page logic (`src/src/app/pitch-score/page.tsx`);
* the companies page `find_companies` action handler
  (`src/app/companies/page.tsx`).
-/

namespace Canvas

/-- A checklist entry of a project card, from `GoogleSheetsButton.tsx`. -/
structure ChecklistItem where
  id : String
  text : String
  done : Bool
  proposed : Bool
deriving DecidableEq

/-- The variant tag of a canvas item (`CardType` in the source). -/
inductive CardType where
  | project
  | entity
  | note
  | chart
deriving DecidableEq

/-- Payload of a `project` card, from the source (`ProjectData`). -/
structure ProjectData where
  company : String
  industry : String
  email : String
  requirements : List ChecklistItem
  requirements_id : Int
deriving DecidableEq

/-- Payload of an `entity` card, from the source (`EntityData`). -/
structure EntityData where
  field1 : String
  field2 : String
  field3 : List String
  field3_options : List String
deriving DecidableEq

/-- Payload of a `note` card, from the source (`NoteData`); the single
textarea field is optional in the TypeScript declaration. -/
structure NoteData where
  field1 : Option String
deriving DecidableEq

/-- One metric of a chart card, from the source (`ChartMetric`); the
`value` field is `number | ""` in TypeScript, modelled as `Option Int`. -/
structure ChartMetric where
  id : String
  label : String
  value : Option Int
deriving DecidableEq

/-- Payload of a `chart` card, from the source (`ChartData`). -/
structure ChartData where
  field1 : List ChartMetric
  field1_id : Int
deriving DecidableEq

/-- The variant-specific payload of an item (`ItemData` in the source is the
union of the four payload record types; the union is tagged here so the
variant is recoverable, as it is in the source via the item's `type`). -/
inductive ItemData where
  | project : ProjectData → ItemData
  | entity : EntityData → ItemData
  | note : NoteData → ItemData
  | chart : ChartData → ItemData
deriving DecidableEq

/-- The variant tag carried by a payload. -/
def ItemData.tag : ItemData → CardType
  | .project _ => .project
  | .entity _ => .entity
  | .note _ => .note
  | .chart _ => .chart

/-- A canvas item, from the source (`Item`). -/
structure Item where
  id : String
  type : CardType
  name : String
  subtitle : String
  data : ItemData
deriving DecidableEq

/-! ### JSON values

Modelled from the spec: the synchronizer implementation (`sheets_sync.py`)
is absent from the shipped sources; the spec's catch-all "Raw Data" column
holds "a full serialized copy of the payload".  Serialization is modelled
as JSON values built from strings, numbers, booleans, null, arrays and
keyed objects. -/

mutual

inductive Json where
  | str : String → Json
  | num : Int → Json
  | bool : Bool → Json
  | null : Json
  | arr : JArray → Json
  | obj : JObject → Json

inductive JArray where
  | nil : JArray
  | cons : Json → JArray → JArray

inductive JObject where
  | onil : JObject
  | ocons : String → Json → JObject → JObject

end

mutual

def Json.beq : Json → Json → Bool
  | .str a, .str b => a == b
  | .num a, .num b => a == b
  | .bool a, .bool b => a == b
  | .null, .null => true
  | .arr a, .arr b => JArray.beq a b
  | .obj a, .obj b => JObject.beq a b
  | _, _ => false

def JArray.beq : JArray → JArray → Bool
  | .nil, .nil => true
  | .cons a as, .cons b bs => Json.beq a b && JArray.beq as bs
  | _, _ => false

def JObject.beq : JObject → JObject → Bool
  | .onil, .onil => true
  | .ocons k v as, .ocons k2 v2 bs => k == k2 && Json.beq v v2 && JObject.beq as bs
  | _, _ => false

end

instance : BEq Json := ⟨Json.beq⟩

/-! ### Payload serialization (catch-all column)

Modelled from the spec: "The full payload is additionally serialized in
full into a catch-all column regardless of variant".  Each payload record
is encoded as a JSON object keyed by its field names, mirroring the
TypeScript record declarations. -/

def encodeChecklistItem (c : ChecklistItem) : Json :=
  .obj (.ocons "id" (.str c.id)
    (.ocons "text" (.str c.text)
      (.ocons "done" (.bool c.done)
        (.ocons "proposed" (.bool c.proposed) .onil))))

def decodeChecklistItem : Json → Option ChecklistItem
  | .obj (.ocons "id" (.str i)
      (.ocons "text" (.str t)
        (.ocons "done" (.bool d)
          (.ocons "proposed" (.bool p) .onil)))) => some ⟨i, t, d, p⟩
  | _ => none

def encodeChecklist : List ChecklistItem → JArray
  | [] => .nil
  | c :: cs => .cons (encodeChecklistItem c) (encodeChecklist cs)

def decodeChecklist : JArray → Option (List ChecklistItem)
  | .nil => some []
  | .cons j rest =>
    match decodeChecklistItem j, decodeChecklist rest with
    | some c, some cs => some (c :: cs)
    | _, _ => none

def encodeStrings : List String → JArray
  | [] => .nil
  | s :: ss => .cons (.str s) (encodeStrings ss)

def decodeStrings : JArray → Option (List String)
  | .nil => some []
  | .cons (.str s) rest =>
    match decodeStrings rest with
    | some ss => some (s :: ss)
    | none => none
  | .cons _ _ => none

def encodeMetricValue : Option Int → Json
  | some n => .num n
  | none => .str ""

def decodeMetricValue : Json → Option (Option Int)
  | .num n => some (some n)
  | .str s => if s = "" then some none else none
  | _ => none

def encodeMetric (m : ChartMetric) : Json :=
  .obj (.ocons "id" (.str m.id)
    (.ocons "label" (.str m.label)
      (.ocons "value" (encodeMetricValue m.value) .onil)))

def decodeMetric : Json → Option ChartMetric
  | .obj (.ocons "id" (.str i)
      (.ocons "label" (.str l)
        (.ocons "value" v .onil))) =>
    match decodeMetricValue v with
    | some mv => some ⟨i, l, mv⟩
    | none => none
  | _ => none

def encodeMetrics : List ChartMetric → JArray
  | [] => .nil
  | m :: ms => .cons (encodeMetric m) (encodeMetrics ms)

def decodeMetrics : JArray → Option (List ChartMetric)
  | .nil => some []
  | .cons j rest =>
    match decodeMetric j, decodeMetrics rest with
    | some m, some ms => some (m :: ms)
    | _, _ => none

/-- Serialize a full payload into the catch-all JSON value.  Modelled from
the spec: the catch-all column is "the source of truth for any round-trip". -/
def encodeItemData : ItemData → Json
  | .project d =>
    .obj (.ocons "company" (.str d.company)
      (.ocons "industry" (.str d.industry)
        (.ocons "email" (.str d.email)
          (.ocons "requirements" (.arr (encodeChecklist d.requirements))
            (.ocons "requirements_id" (.num d.requirements_id) .onil)))))
  | .entity d =>
    .obj (.ocons "field1" (.str d.field1)
      (.ocons "field2" (.str d.field2)
        (.ocons "field3" (.arr (encodeStrings d.field3))
          (.ocons "field3_options" (.arr (encodeStrings d.field3_options)) .onil))))
  | .note d =>
    match d.field1 with
    | some s => .obj (.ocons "field1" (.str s) .onil)
    | none => .obj .onil
  | .chart d =>
    .obj (.ocons "field1" (.arr (encodeMetrics d.field1))
      (.ocons "field1_id" (.num d.field1_id) .onil))

/-- Deserialize the catch-all JSON value back into a payload; the variant
is recognized from the object's key set, which is distinct per variant. -/
def decodeItemData : Json → Option ItemData
  | .obj (.ocons "company" (.str c)
      (.ocons "industry" (.str ind)
        (.ocons "email" (.str e)
          (.ocons "requirements" (.arr reqs)
            (.ocons "requirements_id" (.num rid) .onil))))) =>
    match decodeChecklist reqs with
    | some rs => some (.project ⟨c, ind, e, rs, rid⟩)
    | none => none
  | .obj (.ocons "field1" (.str f1)
      (.ocons "field2" (.str f2)
        (.ocons "field3" (.arr f3)
          (.ocons "field3_options" (.arr f3o) .onil)))) =>
    match decodeStrings f3, decodeStrings f3o with
    | some tags, some opts => some (.entity ⟨f1, f2, tags, opts⟩)
    | _, _ => none
  | .obj (.ocons "field1" (.str s) .onil) => some (.note ⟨some s⟩)
  | .obj .onil => some (.note ⟨none⟩)
  | .obj (.ocons "field1" (.arr ms)
      (.ocons "field1_id" (.num mid) .onil)) =>
    match decodeMetrics ms with
    | some metrics => some (.chart ⟨metrics, mid⟩)
    | none => none
  | _ => none

/-! ### Projection of an item onto a sheet row

Modelled from the spec: the synchronizer implementation is not among the
shipped sources.  Per the spec's projection algorithm and the field
mappings table of `GOOGLE_SHEETS_INTEGRATION.md`, each variant fills a
fixed, ordered subset of the four type-specific columns (project uses all
four; entity uses field-1..field-3; note and chart use field-1 only) and
every unused slot is left empty. -/

/-- Join a list of strings with `", "`, used for the entity tag column. -/
def joinTags : List String → String
  | [] => ""
  | [s] => s
  | s :: rest => s ++ ", " ++ joinTags rest

/-- Summarized count of a project checklist: done over total. -/
def summarizeChecklist (cs : List ChecklistItem) : String :=
  toString (cs.countP (fun c => c.done)) ++ "/" ++ toString cs.length ++ " done"

/-- Summarized count of the chart metrics. -/
def summarizeMetrics (ms : List ChartMetric) : String :=
  toString ms.length ++ " metrics"

/-- The four type-specific columns of a row, selected by variant tag. -/
def projFields : ItemData → String × String × String × String
  | .project d => (d.company, d.industry, d.email, summarizeChecklist d.requirements)
  | .entity d => (d.field1, d.field2, joinTags d.field3, "")
  | .note d => (d.field1.getD "", "", "", "")
  | .chart d => (summarizeMetrics d.field1, "", "", "")

/-- A row of the Sync Target, modelled from the spec's data model and the
column table of `GOOGLE_SHEETS_INTEGRATION.md`: identifier, type, name,
subtitle, four type-specific fields, a last-modified timestamp, and the
catch-all serialized payload. -/
structure Row where
  id : String
  type : CardType
  name : String
  subtitle : String
  field1 : String
  field2 : String
  field3 : String
  field4 : String
  lastUpdated : Nat
  rawData : Json

/-- Project an item onto its row at time `now`.  Modelled from the spec:
"a flattened projection of one Item". -/
def projectRow (now : Nat) (it : Item) : Row :=
  let f := projFields it.data
  { id := it.id
    type := it.type
    name := it.name
    subtitle := it.subtitle
    field1 := f.1
    field2 := f.2.1
    field3 := f.2.2.1
    field4 := f.2.2.2
    lastUpdated := now
    rawData := encodeItemData it.data }

/-- Content equality of two rows: every column except the last-modified
timestamp.  Modelled from the spec: the diff compares the projected row
with the remote row; an unchanged row is skipped (its timestamp is not
rewritten). -/
def sameContent (a b : Row) : Bool :=
  a.id == b.id && a.type == b.type && a.name == b.name &&
    a.subtitle == b.subtitle && a.field1 == b.field1 && a.field2 == b.field2 &&
    a.field3 == b.field3 && a.field4 == b.field4 && a.rawData == b.rawData

/-! ### Sync target and state

Modelled from the spec: the Sync Target is "an identifier for the external
spreadsheet plus its human-readable name; created lazily on first sync if
none exists", and the remote sheet is a list of rows keyed by the
identifier column. -/

structure SyncTarget where
  id : String
  title : String
deriving DecidableEq

/-- The synchronizer-visible state: the optional target association and
the rows of the remote sheet. -/
structure SyncState where
  target : Option SyncTarget
  rows : List Row

/-- The state before any sync: no association, no rows. -/
def initialState : SyncState := { target := none, rows := [] }

/-- Error kinds of the spec's error-handling design. -/
inductive SyncError where
  | authenticationError
  | rateLimitError
  | transientNetworkError
  | noTargetError
  | rowConflictError
deriving DecidableEq

/-- Per-item outcome of a single-item sync. -/
inductive SyncResult where
  | created
  | updated
  | skipped
deriving DecidableEq

/-- The report of a full-collection sync: counts of rows created, updated,
deleted and skipped-unchanged, plus the per-row failures (identifier and
reason).  Modelled from the spec's `SyncReport`. -/
structure SyncReport where
  created : Nat
  updated : Nat
  deleted : Nat
  skipped : Nat
  failures : List (String × String)
deriving DecidableEq

/-- Modelled from the spec: `ensureTarget(preferredTitle?)` returns the
existing target if one is associated with this session; otherwise it
creates a new spreadsheet (`freshId` stands for the identifier the remote
service would mint) with the given or a generated title and records the
association. -/
def ensureTarget (st : SyncState) (preferredTitle : Option String)
    (freshId : String) : SyncTarget × SyncState :=
  match st.target with
  | some t => (t, st)
  | none =>
    let t : SyncTarget := { id := freshId, title := preferredTitle.getD "Canvas Items Sync" }
    (t, { st with target := some t })

/-- Locate the row of an identifier, by the identifier column and not by
row position. -/
def readRow (st : SyncState) (id : String) : Option Row :=
  st.rows.find? (fun r => r.id == id)

/-- Modelled from the spec: `getTargetUrl()` returns a human-navigable
link to the current Sync Target and fails with `NoTargetError` when no
target association exists. -/
def getTargetUrl (st : SyncState) : Except SyncError String :=
  match st.target with
  | some t => .ok ("https://docs.google.com/spreadsheets/d/" ++ t.id)
  | none => .error .noTargetError

/-- Upsert of one projected row, keyed by identifier: update the matching
row when present (skip when its content is unchanged), append otherwise. -/
def upsertRow (now : Nat) (it : Item) (rows : List Row) : SyncResult × List Row :=
  match rows.find? (fun r => r.id == it.id) with
  | some existing =>
    if sameContent existing (projectRow now it) then (.skipped, rows)
    else (.updated,
      rows.map (fun r => if r.id == it.id then projectRow now it else r))
  | none => (.created, rows ++ [projectRow now it])

/-- Modelled from the spec: `syncOne(item)` applies the projection/diff
logic to a single identifier, creating the target lazily first; it never
performs deletion inference. -/
def syncOne (now : Nat) (freshId : String) (it : Item) (st : SyncState) :
    SyncResult × SyncState :=
  let st1 := (ensureTarget st none freshId).2
  ((upsertRow now it st1.rows).1, { st1 with rows := (upsertRow now it st1.rows).2 })

/-- Counts accumulated by the upsert phase of a full sync. -/
structure UpsertStats where
  created : Nat
  updated : Nat
  skipped : Nat
  failures : List (String × String)

/-- The upsert phase of a full sync.  `fails` models the remote service:
for a row key it yields the failure reason of that row's operation, or
`none` when the operation succeeds.  A failed row is recorded and the
batch continues (the spec's partial-failure isolation). -/
def syncRows (now : Nat) (fails : String → Option String) :
    List Item → List Row → UpsertStats × List Row
  | [], rows => ({ created := 0, updated := 0, skipped := 0, failures := [] }, rows)
  | it :: rest, rows =>
    match fails it.id with
    | some reason =>
      let r := syncRows now fails rest rows
      ({ r.1 with failures := (it.id, reason) :: r.1.failures }, r.2)
    | none =>
      match upsertRow now it rows with
      | (.skipped, rows1) =>
        let r := syncRows now fails rest rows1
        ({ r.1 with skipped := r.1.skipped + 1 }, r.2)
      | (.updated, rows1) =>
        let r := syncRows now fails rest rows1
        ({ r.1 with updated := r.1.updated + 1 }, r.2)
      | (.created, rows1) =>
        let r := syncRows now fails rest rows1
        ({ r.1 with created := r.1.created + 1 }, r.2)

/-- The deletion phase of a full sync: delete every remote row whose
identifier is absent from `keep` (the identifiers of the supplied
collection); a failed delete is recorded and the row stays.  Results are
`(deleted, failures, rows)`. -/
def deleteRows (fails : String → Option String) (keep : List String) :
    List Row → Nat × List (String × String) × List Row
  | [] => (0, [], [])
  | r :: rest =>
    let d := deleteRows fails keep rest
    if keep.contains r.id then (d.1, d.2.1, r :: d.2.2)
    else
      match fails r.id with
      | some reason => (d.1, (r.id, reason) :: d.2.1, r :: d.2.2)
      | none => (d.1 + 1, d.2.1, d.2.2)

/-- Modelled from the spec: `syncAll(items)` ensures the target, computes
every item's projected row, issues creates/updates for items whose
projection differs from the remote row, skips unchanged rows, deletes
remote rows whose identifier is absent from the supplied collection, and
returns the counts together with the per-row failures. -/
def syncAll (now : Nat) (freshId : String) (fails : String → Option String)
    (items : List Item) (st : SyncState) : SyncReport × SyncState :=
  let st1 := (ensureTarget st none freshId).2
  let u := syncRows now fails items st1.rows
  let d := deleteRows fails (items.map Item.id) u.2
  ({ created := u.1.created, updated := u.1.updated, deleted := d.1,
     skipped := u.1.skipped, failures := u.1.failures ++ d.2.1 },
    { st1 with rows := d.2.2 })

/-- The spec's worked example item: `{id:"a", type:"note", payload:{field1:"hello"}}`. -/
def exampleNoteItem : Item :=
  { id := "a", type := .note, name := "", subtitle := "",
    data := .note { field1 := some "hello" } }

/-- A second concrete item, used to exercise multi-item collections. -/
def exampleItemB : Item :=
  { id := "b", type := .note, name := "B", subtitle := "",
    data := .note { field1 := some "world" } }

end Canvas

namespace Pitch

/-- One assessment criterion of the pitch-score page
(`AssessmentCriteria` in `src/src/app/pitch-score/page.tsx`); JavaScript
numbers are modelled as rationals. -/
structure AssessmentCriteria where
  id : String
  category : String
  criteria : String
  description : String
  score : ℚ
  weight : ℚ
deriving DecidableEq

/-- The recommendation union type of the source. -/
inductive Recommendation where
  | highly_recommend
  | recommend
  | neutral
  | not_recommend
deriving DecidableEq

/-- The assessment state of the pitch-score page (`PitchAssessment` in the
source); `overallScore` always holds the integer result of `Math.round`. -/
structure PitchAssessment where
  sellerId : String
  sellerName : String
  companyId : String
  companyName : String
  date : String
  overallScore : ℤ
  criteria : List AssessmentCriteria
  feedback : String
  recommendation : Recommendation
deriving DecidableEq

/-- JavaScript `Math.round`: the nearest integer, halves rounded toward
positive infinity. -/
def jsRound (q : ℚ) : ℤ := ⌊q + 1 / 2⌋

/-- The six hard-coded criteria of the initial assessment state, from the
source (`useState` initializer); every score starts at 0. -/
def initialCriteria : List AssessmentCriteria :=
  [{ id := "1", category := "Product Knowledge",
     criteria := "Understanding of Product/Service",
     description := "Demonstrates deep knowledge of features, benefits, and use cases",
     score := 0, weight := 20 },
   { id := "2", category := "Communication",
     criteria := "Clarity and Articulation",
     description := "Communicates ideas clearly and adapts message to audience",
     score := 0, weight := 15 },
   { id := "3", category := "Needs Analysis",
     criteria := "Understanding Customer Needs",
     description := "Asks relevant questions and identifies pain points accurately",
     score := 0, weight := 20 },
   { id := "4", category := "Solution Fit",
     criteria := "Relevance of Proposed Solution",
     description := "Aligns solution with specific company needs and challenges",
     score := 0, weight := 20 },
   { id := "5", category := "Objection Handling",
     criteria := "Addressing Concerns",
     description := "Handles objections professionally and provides satisfactory answers",
     score := 0, weight := 15 },
   { id := "6", category := "Professionalism",
     criteria := "Overall Professionalism",
     description := "Maintains professional demeanor, punctuality, and follow-up",
     score := 0, weight := 10 }]

/-- The initial assessment state of the page, from the source; the company
identifier comes from the query string and the date from the clock. -/
def initialAssessment (companyId date : String) : PitchAssessment :=
  { sellerId := "seller-1", sellerName := "John Smith",
    companyId := companyId, companyName := "TechCorp Solutions",
    date := date, overallScore := 0, criteria := initialCriteria,
    feedback := "", recommendation := .neutral }

/-- `calculateOverallScore` from the source: `Math.round` of the reduce of
`score * weight / 100` over the closed-over assessment's criteria. -/
def calculateOverallScore (a : PitchAssessment) : ℤ :=
  jsRound (a.criteria.foldl (fun sum c => sum + c.score * c.weight / 100) 0)

/-- `updateScore` from the source: the functional state update replaces the
matching criterion's score and stores `calculateOverallScore()`, which
reads the closed-over (pre-update) assessment. -/
def updateScore (prev : PitchAssessment) (criterionId : String) (score : ℚ) :
    PitchAssessment :=
  { prev with
    criteria := prev.criteria.map
      (fun c => if c.id = criterionId then { c with score := score } else c),
    overallScore := calculateOverallScore prev }

/-- The page's assessment with the six criterion scores set to the given
values, in page order. -/
def assessmentWithScores (s1 s2 s3 s4 s5 s6 : ℚ) : PitchAssessment :=
  { initialAssessment "1" "2025-01-01" with
    criteria :=
      (initialAssessment "1" "2025-01-01").criteria.zipWith
        (fun c q => { c with score := q }) [s1, s2, s3, s4, s5, s6] }

end Pitch

namespace Companies

/-- The status union type of a company on the companies page. -/
inductive CompanyStatus where
  | active
  | pending
  | contacted
deriving DecidableEq

/-- A company of the companies page (`Company` in the source). -/
structure Company where
  id : String
  name : String
  industry : String
  employees : String
  jobOpenings : Nat
  status : CompanyStatus
deriving DecidableEq

/-- The hard-coded four-company list of the `useState` initializer. -/
def initialCompanies : List Company :=
  [{ id := "1", name := "TechCorp Solutions", industry := "Software Development",
     employees := "500-1000", jobOpenings := 12, status := .active },
   { id := "2", name := "Global Manufacturing Inc", industry := "Manufacturing",
     employees := "1000-5000", jobOpenings := 8, status := .pending },
   { id := "3", name := "Healthcare Innovations", industry := "Healthcare",
     employees := "100-500", jobOpenings := 15, status := .active },
   { id := "4", name := "Finance Leaders Ltd", industry := "Financial Services",
     employees := "5000+", jobOpenings := 20, status := .contacted }]

/-- Boolean list-prefix test on characters. -/
def isPrefixList : List Char → List Char → Bool
  | [], _ => true
  | _ :: _, [] => false
  | a :: as, b :: bs => a == b && isPrefixList as bs

/-- Boolean substring test on character lists, the semantics of JavaScript
`String.prototype.includes`. -/
def isInfixList (needle : List Char) : List Char → Bool
  | [] => isPrefixList needle []
  | b :: bs => isPrefixList needle (b :: bs) || isInfixList needle bs

/-- Character list of a string lowered characterwise, the semantics of
`toLowerCase` on the ASCII data of the page. -/
def lowerChars (s : String) : List Char := s.data.map Char.toLower

/-- The filter predicate of the `find_companies` handler:
`company.industry.toLowerCase().includes(criteria.toLowerCase()) ||
company.name.toLowerCase().includes(criteria.toLowerCase())`. -/
def matchesCriteria (criteria : String) (c : Company) : Bool :=
  isInfixList (lowerChars criteria) (lowerChars c.industry) ||
    isInfixList (lowerChars criteria) (lowerChars c.name)

/-- The `find_companies` action handler from the source: filters the
companies state by the criteria and returns the message; the handler never
calls `setCompanies`, so the state component is returned unchanged. -/
def findCompaniesHandler (companies : List Company) (criteria : String) :
    List Company × String :=
  let matching := companies.filter (matchesCriteria criteria)
  (companies,
    "Found " ++ toString matching.length ++ " companies matching \"" ++ criteria ++ "\"")

end Companies

/-! ## Helper lemmas -/

namespace Canvas

mutual

theorem Json.eq_of_beq : ∀ {a b : Json}, Json.beq a b = true → a = b
  | .str _, .str _, h => by simp only [Json.beq, beq_iff_eq] at h; rw [h]
  | .num _, .num _, h => by simp only [Json.beq, beq_iff_eq] at h; rw [h]
  | .bool _, .bool _, h => by simp only [Json.beq, beq_iff_eq] at h; rw [h]
  | .null, .null, _ => rfl
  | .arr a, .arr b, h => by
      simp only [Json.beq] at h
      rw [JArray.eq_of_beqArr h]
  | .obj a, .obj b, h => by
      simp only [Json.beq] at h
      rw [JObject.eq_of_beqObj h]

theorem JArray.eq_of_beqArr : ∀ {a b : JArray}, JArray.beq a b = true → a = b
  | .nil, .nil, _ => rfl
  | .cons a as, .cons b bs, h => by
      simp only [JArray.beq, Bool.and_eq_true] at h
      rw [Json.eq_of_beq h.1, JArray.eq_of_beqArr h.2]

theorem JObject.eq_of_beqObj : ∀ {a b : JObject}, JObject.beq a b = true → a = b
  | .onil, .onil, _ => rfl
  | .ocons k v as, .ocons k2 v2 bs, h => by
      simp only [JObject.beq, Bool.and_eq_true, beq_iff_eq] at h
      rw [h.1.1, Json.eq_of_beq h.1.2, JObject.eq_of_beqObj h.2]

end

mutual

theorem Json.beq_refl : ∀ (a : Json), Json.beq a a = true
  | .str _ => by simp [Json.beq]
  | .num _ => by simp [Json.beq]
  | .bool _ => by simp [Json.beq]
  | .null => rfl
  | .arr a => by simp only [Json.beq]; exact JArray.beq_reflArr a
  | .obj a => by simp only [Json.beq]; exact JObject.beq_reflObj a

theorem JArray.beq_reflArr : ∀ (a : JArray), JArray.beq a a = true
  | .nil => rfl
  | .cons a as => by
      simp only [JArray.beq, Bool.and_eq_true]
      exact ⟨Json.beq_refl a, JArray.beq_reflArr as⟩

theorem JObject.beq_reflObj : ∀ (a : JObject), JObject.beq a a = true
  | .onil => rfl
  | .ocons k v as => by
      simp only [JObject.beq, Bool.and_eq_true, beq_iff_eq]
      exact ⟨⟨trivial, Json.beq_refl v⟩, JObject.beq_reflObj as⟩

end

theorem Json.beq_iff_eq {a b : Json} : Json.beq a b = true ↔ a = b :=
  ⟨Json.eq_of_beq, fun h => h ▸ Json.beq_refl a⟩

theorem decodeChecklistItem_encode (c : ChecklistItem) :
    decodeChecklistItem (encodeChecklistItem c) = some c := rfl

theorem decodeChecklist_encode (cs : List ChecklistItem) :
    decodeChecklist (encodeChecklist cs) = some cs := by
  induction cs with
  | nil => rfl
  | cons c rest ih =>
    simp only [encodeChecklist, decodeChecklist, decodeChecklistItem_encode, ih]

theorem decodeStrings_encode (ss : List String) :
    decodeStrings (encodeStrings ss) = some ss := by
  induction ss with
  | nil => rfl
  | cons s rest ih => simp only [encodeStrings, decodeStrings, ih]

theorem decodeMetricValue_encode (v : Option Int) :
    decodeMetricValue (encodeMetricValue v) = some v := by
  cases v with
  | none => rfl
  | some n => rfl

theorem decodeMetric_encode (m : ChartMetric) :
    decodeMetric (encodeMetric m) = some m := by
  cases m with
  | mk i l v =>
    cases v with
    | none => rfl
    | some n => rfl

theorem decodeMetrics_encode (ms : List ChartMetric) :
    decodeMetrics (encodeMetrics ms) = some ms := by
  induction ms with
  | nil => rfl
  | cons m rest ih =>
    simp only [encodeMetrics, decodeMetrics, decodeMetric_encode, ih]

/-- Round-trip law for the catch-all serialization: deserializing the
serialized payload recovers the payload exactly, for every variant. -/
theorem decodeItemData_encode (d : ItemData) :
    decodeItemData (encodeItemData d) = some d := by
  cases d with
  | project p =>
    simp only [encodeItemData, decodeItemData, decodeChecklist_encode]
  | entity e =>
    simp only [encodeItemData, decodeItemData, decodeStrings_encode]
  | note n =>
    cases n with
    | mk f =>
      cases f with
      | none => rfl
      | some s => rfl
  | chart c =>
    simp only [encodeItemData, decodeItemData, decodeMetrics_encode]

end Canvas

namespace Canvas

theorem json_beq_self (a : Json) : (a == a) = true := Json.beq_refl a

theorem projectRow_id (now : Nat) (it : Item) : (projectRow now it).id = it.id := rfl

theorem projectRow_type (now : Nat) (it : Item) :
    (projectRow now it).type = it.type := rfl

theorem projectRow_rawData (now : Nat) (it : Item) :
    (projectRow now it).rawData = encodeItemData it.data := rfl

/-- Content equality against a projection ignores the projection time. -/
theorem sameContent_projectRow_time (r : Row) (n m : Nat) (it : Item) :
    sameContent r (projectRow n it) = sameContent r (projectRow m it) := rfl

theorem sameContent_projectRow_self (n m : Nat) (it : Item) :
    sameContent (projectRow n it) (projectRow m it) = true := by
  simp [sameContent, projectRow, json_beq_self]

/-- The columns a content comparison inspects are equal when it succeeds. -/
theorem sameContent_fields {a b : Row} (h : sameContent a b = true) :
    a.id = b.id ∧ a.type = b.type ∧ a.name = b.name ∧ a.subtitle = b.subtitle ∧
      a.field1 = b.field1 ∧ a.field2 = b.field2 ∧ a.field3 = b.field3 ∧
      a.field4 = b.field4 ∧ a.rawData = b.rawData := by
  simp only [sameContent, Bool.and_eq_true, beq_iff_eq] at h
  obtain ⟨⟨⟨⟨⟨⟨⟨⟨h1, h2⟩, h3⟩, h4⟩, h5⟩, h6⟩, h7⟩, h8⟩, h9⟩ := h
  exact ⟨h1, h2, h3, h4, h5, h6, h7, h8, Json.eq_of_beq h9⟩

/-- `find?` by identifier commutes with an identifier-preserving map. -/
theorem find?_map_of_id (g : Row → Row) (hg : ∀ r, (g r).id = r.id) (i : String)
    (rows : List Row) :
    (rows.map g).find? (fun r => r.id == i) =
      (rows.find? (fun r => r.id == i)).map g := by
  induction rows with
  | nil => rfl
  | cons r rest ih =>
    simp only [List.map_cons, List.find?, hg]
    cases h : (r.id == i)
    · simp [h, ih]
    · simp [h]

/-- After an upsert, the identifier locates a row whose content is the
item's projection. -/
theorem upsertRow_find (now : Nat) (it : Item) (rows : List Row) :
    ∃ r, (upsertRow now it rows).2.find? (fun x => x.id == it.id) = some r ∧
      sameContent r (projectRow now it) = true := by
  unfold upsertRow
  cases hf : rows.find? (fun r => r.id == it.id) with
  | none =>
    refine ⟨projectRow now it, ?_, sameContent_projectRow_self now now it⟩
    rw [List.find?_append, hf]
    simp [List.find?, projectRow_id]
  | some existing =>
    by_cases hs : sameContent existing (projectRow now it) = true
    · simp only [hs, if_true]
      exact ⟨existing, hf, hs⟩
    · simp only [hs, if_false, Bool.false_eq_true]
      have hid : (existing.id == it.id) = true := by
        have := List.find?_some hf
        simpa using this
      refine ⟨projectRow now it, ?_, sameContent_projectRow_self now now it⟩
      rw [find?_map_of_id _ ?_ _ rows, hf]
      · simp [beq_iff_eq.mp hid]
      · intro r
        by_cases hr : (r.id == it.id) = true
        · simp [hr, projectRow_id]
          exact (beq_iff_eq.mp hr).symm
        · simp [hr]

/-- An upsert leaves a row found under a different identifier in place. -/
theorem upsertRow_other (now : Nat) (it : Item) (rows : List Row) (i : String)
    (hi : i ≠ it.id) (r : Row)
    (h : rows.find? (fun x => x.id == i) = some r) :
    (upsertRow now it rows).2.find? (fun x => x.id == i) = some r := by
  unfold upsertRow
  cases hf : rows.find? (fun x => x.id == it.id) with
  | none =>
    rw [List.find?_append, h]
    rfl
  | some existing =>
    by_cases hs : sameContent existing (projectRow now it) = true
    · simpa [hs] using h
    · simp only [hs, if_false, Bool.false_eq_true]
      rw [find?_map_of_id _ ?_ _ rows, h]
      · have hr : (r.id == i) = true := by
          have := List.find?_some h
          simpa using this
        have : r.id ≠ it.id := by
          rw [beq_iff_eq.mp hr]
          exact hi
        simp [this]
      · intro x
        by_cases hx : (x.id == it.id) = true
        · simp [hx, projectRow_id]
          exact (beq_iff_eq.mp hx).symm
        · simp [hx]

end Canvas

namespace Canvas

theorem ensureTarget_of_some (st : SyncState) (pt : Option String) (fid : String)
    (t : SyncTarget) (h : st.target = some t) : ensureTarget st pt fid = (t, st) := by
  simp [ensureTarget, h]

theorem ensureTarget_target (st : SyncState) (pt : Option String) (fid : String) :
    ((ensureTarget st pt fid).2).target = some (ensureTarget st pt fid).1 := by
  cases h : st.target <;> simp [ensureTarget, h]

theorem ensureTarget_rows (st : SyncState) (pt : Option String) (fid : String) :
    ((ensureTarget st pt fid).2).rows = st.rows := by
  cases h : st.target <;> simp [ensureTarget, h]

/-- The failures reported by the upsert phase are exactly the failing
identifiers of the collection, in order, with their reasons. -/
theorem syncRows_failures (now : Nat) (fails : String → Option String)
    (items : List Item) (rows : List Row) :
    (syncRows now fails items rows).1.failures =
      items.filterMap (fun it => (fails it.id).map (fun s => (it.id, s))) := by
  induction items generalizing rows with
  | nil => rfl
  | cons it rest ih =>
    cases hf : fails it.id with
    | some reason => simp [syncRows, List.filterMap_cons, hf, ih]
    | none =>
      rcases hu : upsertRow now it rows with ⟨res, rows1⟩
      cases res <;> simp [syncRows, List.filterMap_cons, hf, hu, ih]

/-- The upsert phase leaves a row whose identifier is outside the
collection untouched and findable. -/
theorem syncRows_stable (now : Nat) (fails : String → Option String)
    (items : List Item) (rows : List Row) (i : String) (r : Row)
    (hi : i ∉ items.map Item.id)
    (h : rows.find? (fun x => x.id == i) = some r) :
    (syncRows now fails items rows).2.find? (fun x => x.id == i) = some r := by
  induction items generalizing rows with
  | nil => simpa [syncRows] using h
  | cons it rest ih =>
    have hne : i ≠ it.id := by
      intro hc
      exact hi (by simp [hc])
    have hi' : i ∉ rest.map Item.id := by
      intro hc
      exact hi (by simp [hc])
    cases hf : fails it.id with
    | some reason =>
      simpa [syncRows, hf] using ih rows hi' h
    | none =>
      rcases hu : upsertRow now it rows with ⟨res, rows1⟩
      have h1 : rows1.find? (fun x => x.id == i) = some r := by
        have := upsertRow_other now it rows i hne r h
        rwa [hu] at this
      cases res <;> simpa [syncRows, hf, hu] using ih rows1 hi' h1

/-- When every item of the collection already has an up-to-date remote
row, the upsert phase reports all rows skipped and leaves the sheet
unchanged. -/
theorem syncRows_all_skip (now : Nat) (items : List Item) (rows : List Row)
    (h : ∀ it ∈ items, ∃ r, rows.find? (fun x => x.id == it.id) = some r ∧
      sameContent r (projectRow now it) = true) :
    syncRows now (fun _ => none) items rows =
      ({ created := 0, updated := 0, skipped := items.length, failures := [] },
        rows) := by
  induction items with
  | nil => rfl
  | cons it rest ih =>
    obtain ⟨r, hfind, hsame⟩ := h it (by simp)
    have hup : upsertRow now it rows = (.skipped, rows) := by
      unfold upsertRow
      rw [hfind]
      simp [hsame]
    have hrest := ih (fun x hx => h x (by simp [hx]))
    simp [syncRows, hup, hrest]

/-- A successfully upserted item's row is findable, with the projected
content, after the whole upsert phase. -/
theorem syncRows_find (now : Nat) (fails : String → Option String)
    (items : List Item) (rows : List Row) :
    (items.map Item.id).Nodup →
    ∀ it ∈ items, fails it.id = none →
      ∃ r, (syncRows now fails items rows).2.find? (fun x => x.id == it.id) = some r ∧
        sameContent r (projectRow now it) = true := by
  induction items generalizing rows with
  | nil =>
    intro _ it h
    cases h
  | cons it0 rest ih =>
    intro hnd it hmem hfail
    have hnd2 : (it0.id :: rest.map Item.id).Nodup := by simpa using hnd
    have hnd' : (rest.map Item.id).Nodup := (List.nodup_cons.mp hnd2).2
    rcases List.mem_cons.mp hmem with rfl | hmem'
    · rcases hu : upsertRow now it rows with ⟨res, rows1⟩
      obtain ⟨r, hfind, hsame⟩ := upsertRow_find now it rows
      rw [hu] at hfind
      have hni : it.id ∉ rest.map Item.id := (List.nodup_cons.mp hnd2).1
      have hstable := syncRows_stable now fails rest rows1 it.id r hni hfind
      cases res <;>
        simpa [syncRows, hfail, hu] using ⟨r, hstable, hsame⟩
    · cases hf : fails it0.id with
      | some reason =>
        simpa [syncRows, hf] using ih rows hnd' it hmem' hfail
      | none =>
        rcases hu : upsertRow now it0 rows with ⟨res, rows1⟩
        cases res <;>
          simpa [syncRows, hf, hu] using ih rows1 hnd' it hmem' hfail

/-- A deletion pass over rows that are all kept deletes nothing. -/
theorem deleteRows_none (fails : String → Option String) (keep : List String)
    (rows : List Row) (h : ∀ r ∈ rows, keep.contains r.id = true) :
    deleteRows fails keep rows = (0, [], rows) := by
  induction rows with
  | nil => rfl
  | cons r rest ih =>
    have hr : r.id ∈ keep := by simpa using h r (by simp)
    have hrest := ih (fun x hx => h x (by simp [hx]))
    simp [deleteRows, hr, hrest]

/-- With no delete failures, every surviving row's identifier is kept. -/
theorem deleteRows_mem_keep (keep : List String) (rows : List Row) :
    ∀ r ∈ (deleteRows (fun _ => none) keep rows).2.2,
      keep.contains r.id = true := by
  induction rows with
  | nil =>
    intro r h
    simp [deleteRows] at h
  | cons r0 rest ih =>
    intro r hr
    by_cases hk : keep.contains r0.id = true
    · simp only [deleteRows, hk, if_true] at hr
      rcases List.mem_cons.mp hr with rfl | h'
      · exact hk
      · exact ih r h'
    · have hkf : keep.contains r0.id = false := by simpa using hk
      simp only [deleteRows, hkf, Bool.false_eq_true, if_false] at hr
      exact ih r hr

/-- The deletion pass leaves a findable kept row findable, unchanged. -/
theorem deleteRows_stable (fails : String → Option String) (keep : List String)
    (rows : List Row) (i : String) (hk : keep.contains i = true) (r : Row)
    (h : rows.find? (fun x => x.id == i) = some r) :
    (deleteRows fails keep rows).2.2.find? (fun x => x.id == i) = some r := by
  induction rows with
  | nil => simp [List.find?] at h
  | cons r0 rest ih =>
    by_cases h0 : (r0.id == i) = true
    · have hid : r0.id = i := beq_iff_eq.mp h0
      have hr0 : r0 = r := by
        have : some r0 = some r := by
          rw [← h]
          simp [List.find?, h0]
        exact Option.some.inj this
      have hk0 : r0.id ∈ keep := by
        rw [hid]
        simpa using hk
      subst hr0
      simp [deleteRows, hk0, List.find?, h0]
    · have h' : rest.find? (fun x => x.id == i) = some r := by
        rw [← h]
        simp [List.find?, h0]
      have hih := ih h'
      by_cases hk0 : r0.id ∈ keep
      · simp [deleteRows, hk0, List.find?, h0, hih]
      · cases hf : fails r0.id with
        | some reason => simp [deleteRows, hk0, hf, List.find?, h0, hih]
        | none => simp [deleteRows, hk0, hf, hih]

end Canvas

namespace Canvas

/-- After a fail-free full sync, every remote row's identifier belongs to
the synced collection. -/
theorem syncAll_rows_keep (now : Nat) (fid : String) (items : List Item)
    (st : SyncState) :
    ∀ r ∈ ((syncAll now fid (fun _ => none) items st).2).rows,
      (items.map Item.id).contains r.id = true := by
  intro r hr
  simp only [syncAll] at hr
  exact deleteRows_mem_keep (items.map Item.id) _ r hr

/-- After a fail-free full sync, every item of the collection has a
findable row with the projected content. -/
theorem syncAll_find (now : Nat) (fid : String) (items : List Item)
    (st : SyncState) (hnd : (items.map Item.id).Nodup) :
    ∀ it ∈ items, ∃ r,
      ((syncAll now fid (fun _ => none) items st).2).rows.find?
        (fun x => x.id == it.id) = some r ∧
      sameContent r (projectRow now it) = true := by
  intro it hmem
  obtain ⟨r, hfind, hsame⟩ :=
    syncRows_find now (fun _ => none) items
      ((ensureTarget st none fid).2).rows hnd it hmem rfl
  have hk : (items.map Item.id).contains it.id = true := by
    simp
    exact ⟨it, hmem, rfl⟩
  refine ⟨r, ?_, hsame⟩
  simp only [syncAll]
  exact deleteRows_stable (fun _ => none) (items.map Item.id) _ it.id hk r hfind

/-- A full sync leaves the target association in place. -/
theorem syncAll_target (now : Nat) (fid : String)
    (fails : String → Option String) (items : List Item) (st : SyncState) :
    ((syncAll now fid fails items st).2).target =
      some (ensureTarget st none fid).1 := by
  simp only [syncAll]
  exact ensureTarget_target st none fid

end Canvas

/-! ## Claim theorems -/

/-- C1.  For every Item, `syncOne(item)` followed by a read of the Sync
Target yields a Row whose identifier, type, and catch-all serialized
payload column exactly reproduce the Item: deserializing the catch-all
column recovers the full payload, with no information lost to the
fixed-width projection. -/
theorem syncOne_round_trip (now : Nat) (fid : String) (it : Canvas.Item)
    (st : Canvas.SyncState) :
    ∃ r, Canvas.readRow (Canvas.syncOne now fid it st).2 it.id = some r ∧
      r.id = it.id ∧ r.type = it.type ∧
      Canvas.decodeItemData r.rawData = some it.data := by
  obtain ⟨r, hfind, hsame⟩ :=
    Canvas.upsertRow_find now it ((Canvas.ensureTarget st none fid).2).rows
  refine ⟨r, ?_, ?_, ?_, ?_⟩
  · simpa [Canvas.readRow, Canvas.syncOne] using hfind
  · exact (Canvas.sameContent_fields hsame).1
  · exact (Canvas.sameContent_fields hsame).2.1
  · have hraw : r.rawData = Canvas.encodeItemData it.data :=
      (Canvas.sameContent_fields hsame).2.2.2.2.2.2.2.2
    rw [hraw]
    exact Canvas.decodeItemData_encode it.data

/-- C5.  `ensureTarget` is idempotent: with an existing association every
call returns that association's target and creates nothing (the state is
unchanged, whatever the preferred title), and two consecutive calls in the
same session return identical targets. -/
theorem ensureTarget_idempotent :
    (∀ (st : Canvas.SyncState) (t : Canvas.SyncTarget)
        (pt : Option String) (fid : String), st.target = some t →
        Canvas.ensureTarget st pt fid = (t, st)) ∧
    (∀ (st : Canvas.SyncState) (pt1 pt2 : Option String) (fid1 fid2 : String),
        (Canvas.ensureTarget (Canvas.ensureTarget st pt1 fid1).2 pt2 fid2).1 =
          (Canvas.ensureTarget st pt1 fid1).1 ∧
        (Canvas.ensureTarget (Canvas.ensureTarget st pt1 fid1).2 pt2 fid2).2 =
          (Canvas.ensureTarget st pt1 fid1).2) := by
  constructor
  · intro st t pt fid h
    exact Canvas.ensureTarget_of_some st pt fid t h
  · intro st pt1 pt2 fid1 fid2
    have h := Canvas.ensureTarget_target st pt1 fid1
    rw [Canvas.ensureTarget_of_some _ pt2 fid2 _ h]
    exact ⟨rfl, rfl⟩

/-- C5 witness: a session whose association already exists returns it
unchanged, and a fresh session's two consecutive calls agree. -/
theorem ensureTarget_idempotent_witness :
    ({ target := some { id := "sheet-1", title := "T" }, rows := [] } :
        Canvas.SyncState).target = some { id := "sheet-1", title := "T" } ∧
    Canvas.ensureTarget
        { target := some { id := "sheet-1", title := "T" }, rows := [] }
        (some "Other") "sheet-2" =
      ({ id := "sheet-1", title := "T" },
        { target := some { id := "sheet-1", title := "T" }, rows := [] }) :=
  ⟨rfl, ensureTarget_idempotent.1
    { target := some { id := "sheet-1", title := "T" }, rows := [] }
    { id := "sheet-1", title := "T" } (some "Other") "sheet-2" rfl⟩

/-- C7.  `getTargetUrl` yields a human-navigable URL exactly when a target
association exists (which in this model happens exactly after a successful
`ensureTarget`); before any `ensureTarget`, in particular on the initial
state, it fails with `NoTargetError`. -/
theorem getTargetUrl_spec :
    (∀ st : Canvas.SyncState, st.target = none →
        Canvas.getTargetUrl st = .error .noTargetError) ∧
    Canvas.getTargetUrl Canvas.initialState = .error .noTargetError ∧
    (∀ (st : Canvas.SyncState) (pt : Option String) (fid : String),
        Canvas.getTargetUrl (Canvas.ensureTarget st pt fid).2 =
          .ok ("https://docs.google.com/spreadsheets/d/" ++
            (Canvas.ensureTarget st pt fid).1.id)) ∧
    (∀ st : Canvas.SyncState,
        (∃ u, Canvas.getTargetUrl st = .ok u) ↔ st.target ≠ none) := by
  refine ⟨?_, rfl, ?_, ?_⟩
  · intro st h
    simp [Canvas.getTargetUrl, h]
  · intro st pt fid
    have h := Canvas.ensureTarget_target st pt fid
    simp [Canvas.getTargetUrl, h]
  · intro st
    cases h : st.target with
    | none => simp [Canvas.getTargetUrl, h]
    | some t => simp [Canvas.getTargetUrl, h]

/-- C7 witness: the initial state has no target, and ensuring one on it
yields a URL for the minted identifier. -/
theorem getTargetUrl_spec_witness :
    Canvas.initialState.target = none ∧
    Canvas.getTargetUrl Canvas.initialState =
      .error Canvas.SyncError.noTargetError :=
  ⟨rfl, getTargetUrl_spec.1 Canvas.initialState rfl⟩

/-- C2.  Syncing the same unchanged collection twice: the second full sync
reports zero rows created, zero updated, zero deleted, all N rows
skipped-unchanged, and leaves the state unchanged; in particular the
spec's one-note-item example `{id:"a", type:"note", payload:{field1:"hello"}}`
yields a second report of `created=0, updated=0, skipped=1` and exactly
one row with identifier `"a"`. -/
theorem syncAll_twice_stable (now1 now2 : Nat) (fid1 fid2 : String)
    (items : List Canvas.Item) (st : Canvas.SyncState)
    (hnd : (items.map Canvas.Item.id).Nodup) :
    ((Canvas.syncAll now2 fid2 (fun _ => none) items
        (Canvas.syncAll now1 fid1 (fun _ => none) items st).2).1 =
      { created := 0, updated := 0, deleted := 0, skipped := items.length,
        failures := [] } ∧
    (Canvas.syncAll now2 fid2 (fun _ => none) items
        (Canvas.syncAll now1 fid1 (fun _ => none) items st).2).2 =
      (Canvas.syncAll now1 fid1 (fun _ => none) items st).2) ∧
    ((Canvas.syncAll 1 "sheet-1" (fun _ => none) [Canvas.exampleNoteItem]
        (Canvas.syncAll 0 "sheet-1" (fun _ => none) [Canvas.exampleNoteItem]
          Canvas.initialState).2).1 =
      { created := 0, updated := 0, deleted := 0, skipped := 1,
        failures := [] } ∧
    ((Canvas.syncAll 1 "sheet-1" (fun _ => none) [Canvas.exampleNoteItem]
        (Canvas.syncAll 0 "sheet-1" (fun _ => none) [Canvas.exampleNoteItem]
          Canvas.initialState).2).2.rows.countP
        (fun r => r.id == "a") = 1)) := by
  constructor
  · obtain ⟨st1, hst1⟩ : ∃ s, (Canvas.syncAll now1 fid1 (fun _ => none) items st).2 = s :=
      ⟨_, rfl⟩
    have htarget : st1.target = some (Canvas.ensureTarget st none fid1).1 := by
      rw [← hst1]
      exact Canvas.syncAll_target now1 fid1 (fun _ => none) items st
    have hens := Canvas.ensureTarget_of_some st1 none fid2
      (Canvas.ensureTarget st none fid1).1 htarget
    have hfind : ∀ it ∈ items, ∃ r,
        st1.rows.find? (fun x => x.id == it.id) = some r ∧
        Canvas.sameContent r (Canvas.projectRow now2 it) = true := by
      intro it hmem
      obtain ⟨r, h1, h2⟩ := Canvas.syncAll_find now1 fid1 items st hnd it hmem
      rw [hst1] at h1
      refine ⟨r, h1, ?_⟩
      rw [Canvas.sameContent_projectRow_time r now2 now1 it]
      exact h2
    have hskip := Canvas.syncRows_all_skip now2 items st1.rows hfind
    have hkeep : ∀ r ∈ st1.rows, (items.map Canvas.Item.id).contains r.id = true := by
      rw [← hst1]
      exact Canvas.syncAll_rows_keep now1 fid1 items st
    have hdel := Canvas.deleteRows_none (fun _ => none) (items.map Canvas.Item.id)
      st1.rows hkeep
    rw [hst1]
    constructor
    · simp [Canvas.syncAll, hens, hskip, hdel]
    · simp [Canvas.syncAll, hens, hskip, hdel]
  · constructor
    · decide
    · decide

/-- C2 witness: the concrete one-note-item collection has distinct
identifiers and its second sync reports no writes. -/
theorem syncAll_twice_stable_witness :
    ([Canvas.exampleNoteItem].map Canvas.Item.id).Nodup ∧
    (Canvas.syncAll 5 "s2" (fun _ => none) [Canvas.exampleNoteItem]
        (Canvas.syncAll 4 "s1" (fun _ => none) [Canvas.exampleNoteItem]
          Canvas.initialState).2).1 =
      { created := 0, updated := 0, deleted := 0, skipped := 1,
        failures := [] } := by
  refine ⟨by decide, ?_⟩
  have h := (syncAll_twice_stable 4 5 "s1" "s2" [Canvas.exampleNoteItem]
    Canvas.initialState (by decide)).1.1
  simpa using h

namespace Canvas

theorem filterMap_fails_nil (fails : String → Option String)
    (items : List Item) (h : ∀ it ∈ items, fails it.id = none) :
    items.filterMap (fun it => (fails it.id).map (fun s => (it.id, s))) = [] := by
  induction items with
  | nil => rfl
  | cons it rest ih =>
    have hh := h it (by simp)
    have hrest := ih (fun x hx => h x (by simp [hx]))
    simp [List.filterMap_cons, hh, hrest]

theorem filterMap_fails_single (fails : String → Option String)
    (k reason : String) (items : List Item)
    (hnd : (items.map Item.id).Nodup) (hk : k ∈ items.map Item.id)
    (hfk : fails k = some reason) (hother : ∀ i, i ≠ k → fails i = none) :
    items.filterMap (fun it => (fails it.id).map (fun s => (it.id, s))) =
      [(k, reason)] := by
  induction items with
  | nil => simp at hk
  | cons it rest ih =>
    have hnd2 : (it.id :: rest.map Item.id).Nodup := by simpa using hnd
    by_cases hid : it.id = k
    · have hnotin : k ∉ rest.map Item.id := by
        rw [← hid]
        exact (List.nodup_cons.mp hnd2).1
      have hrest : ∀ x ∈ rest, fails x.id = none := by
        intro x hx
        apply hother
        intro hc
        exact hnotin (by rw [← hc]; exact List.mem_map_of_mem _ hx)
      simp [List.filterMap_cons, hid, hfk, filterMap_fails_nil fails rest hrest]
    · have hk' : k ∈ rest.map Item.id := by
        rcases (List.mem_cons (a := k) (b := it.id) (l := rest.map Item.id)).mp hk with h | h
        · exact absurd h.symm hid
        · exact h
      have hfit : fails it.id = none := hother it.id hid
      simp [List.filterMap_cons, hfit,
        ih (List.nodup_cons.mp hnd2).2 hk']

theorem deleteRows_failures_none (fails : String → Option String)
    (keep : List String) (rows : List Row)
    (h : ∀ r ∈ rows, r.id ∉ keep → fails r.id = none) :
    (deleteRows fails keep rows).2.1 = [] := by
  induction rows with
  | nil => rfl
  | cons r rest ih =>
    have hrest := ih (fun x hx hk => h x (by simp [hx]) hk)
    by_cases hk : r.id ∈ keep
    · simp [deleteRows, hk, hrest]
    · have hfr := h r (by simp) hk
      simp [deleteRows, hk, hfr, hrest]

theorem upsertRow_mem (now : Nat) (it : Item) (rows : List Row) (r : Row)
    (hr : r ∈ rows) :
    (r.id ≠ it.id → r ∈ (upsertRow now it rows).2) ∧
    ∃ r', r' ∈ (upsertRow now it rows).2 ∧ r'.id = r.id := by
  unfold upsertRow
  cases hf : rows.find? (fun x => x.id == it.id) with
  | none =>
    constructor
    · intro _
      simp [hr]
    · exact ⟨r, by simp [hr], rfl⟩
  | some existing =>
    by_cases hs : sameContent existing (projectRow now it) = true
    · constructor
      · intro _
        simpa [hs] using hr
      · exact ⟨r, by simpa [hs] using hr, rfl⟩
    · simp only [hs, if_false, Bool.false_eq_true]
      constructor
      · intro hne
        have hb : ¬(r.id == it.id) = true := by simp [hne]
        refine List.mem_map.mpr ⟨r, hr, ?_⟩
        simp [hb]
      · by_cases hre : r.id = it.id
        · refine ⟨projectRow now it, List.mem_map.mpr ⟨r, hr, ?_⟩, ?_⟩
          · simp [hre]
          · rw [projectRow_id, hre]
        · have hb : ¬(r.id == it.id) = true := by simp [hre]
          refine ⟨r, List.mem_map.mpr ⟨r, hr, ?_⟩, rfl⟩
          simp [hb]

end Canvas

/-- C3.  Partial-failure isolation of the full sync: when exactly one row
operation fails transiently (the remote rejects exactly the key `k`, an
identifier of the collection), `syncAll` does not abort — every other item
of the collection is still applied and findable, and the report lists
exactly the single failed identifier with its reason. -/
theorem syncAll_partial_failure (now : Nat) (fid : String) (k reason : String)
    (fails : String → Option String) (items : List Canvas.Item)
    (st : Canvas.SyncState)
    (hnd : (items.map Canvas.Item.id).Nodup)
    (hk : k ∈ items.map Canvas.Item.id)
    (hfk : fails k = some reason)
    (hother : ∀ i, i ≠ k → fails i = none) :
    (Canvas.syncAll now fid fails items st).1.failures = [(k, reason)] ∧
    ∀ it ∈ items, it.id ≠ k → ∃ r,
      ((Canvas.syncAll now fid fails items st).2).rows.find?
        (fun x => x.id == it.id) = some r ∧
      Canvas.sameContent r (Canvas.projectRow now it) = true := by
  constructor
  · have h1 := Canvas.syncRows_failures now fails items
      ((Canvas.ensureTarget st none fid).2).rows
    have h2 := Canvas.filterMap_fails_single fails k reason items hnd hk hfk hother
    have h3 := Canvas.deleteRows_failures_none fails (items.map Canvas.Item.id)
      (Canvas.syncRows now fails items ((Canvas.ensureTarget st none fid).2).rows).2
      (fun r _ hnk => hother r.id (fun hc => hnk (by rw [hc]; exact hk)))
    simp [Canvas.syncAll, h1, h2, h3]
  · intro it hmem hne
    have hfit : fails it.id = none := hother it.id hne
    obtain ⟨r, hfind, hsame⟩ := Canvas.syncRows_find now fails items
      ((Canvas.ensureTarget st none fid).2).rows hnd it hmem hfit
    have hkm : (items.map Canvas.Item.id).contains it.id = true := by
      simp
      exact ⟨it, hmem, rfl⟩
    refine ⟨r, ?_, hsame⟩
    simp only [Canvas.syncAll]
    exact Canvas.deleteRows_stable fails (items.map Canvas.Item.id) _ it.id hkm r hfind

/-- C3 witness: a two-item collection where exactly the operation on
`"a"` times out still applies `"b"` and reports the single failure. -/
theorem syncAll_partial_failure_witness :
    ([Canvas.exampleNoteItem, Canvas.exampleItemB].map Canvas.Item.id).Nodup ∧
    "a" ∈ [Canvas.exampleNoteItem, Canvas.exampleItemB].map Canvas.Item.id ∧
    (fun i => if i = "a" then some "timeout" else none) "a" = some "timeout" ∧
    (Canvas.syncAll 0 "s" (fun i => if i = "a" then some "timeout" else none)
        [Canvas.exampleNoteItem, Canvas.exampleItemB]
        Canvas.initialState).1.failures = [("a", "timeout")] := by
  refine ⟨by decide, by decide, by decide, ?_⟩
  exact (syncAll_partial_failure 0 "s" "a" "timeout"
    (fun i => if i = "a" then some "timeout" else none)
    [Canvas.exampleNoteItem, Canvas.exampleItemB] Canvas.initialState
    (by decide) (by decide) (by decide)
    (fun i hi => by simp [hi])).1

/-- C4.  A Row is deleted exactly by a full-collection sync that no longer
contains its Item: after `syncAll` no row with an identifier absent from
the collection remains, while `syncOne` never deletes — every row with a
different identifier is left in place and every previously present
identifier is still present. -/
theorem syncAll_deletes_syncOne_preserves :
    (∀ (now : Nat) (fid : String) (items : List Canvas.Item)
        (st : Canvas.SyncState) (i : String),
        i ∉ items.map Canvas.Item.id →
        ((Canvas.syncAll now fid (fun _ => none) items st).2).rows.find?
          (fun x => x.id == i) = none) ∧
    (∀ (now : Nat) (fid : String) (it : Canvas.Item) (st : Canvas.SyncState)
        (r : Canvas.Row), r ∈ st.rows →
        (r.id ≠ it.id → r ∈ ((Canvas.syncOne now fid it st).2).rows) ∧
        ∃ r', r' ∈ ((Canvas.syncOne now fid it st).2).rows ∧ r'.id = r.id) := by
  constructor
  · intro now fid items st i hi
    rw [List.find?_eq_none]
    intro x hx
    have hxk : (items.map Canvas.Item.id).contains x.id = true :=
      Canvas.syncAll_rows_keep now fid items st x hx
    intro hxi
    have : x.id = i := beq_iff_eq.mp hxi
    rw [this] at hxk
    exact hi (by simpa using hxk)
  · intro now fid it st r hr
    have hrows : ((Canvas.ensureTarget st none fid).2).rows = st.rows :=
      Canvas.ensureTarget_rows st none fid
    have h := Canvas.upsertRow_mem now it ((Canvas.ensureTarget st none fid).2).rows
      r (by rw [hrows]; exact hr)
    constructor
    · intro hne
      simpa [Canvas.syncOne] using h.1 hne
    · obtain ⟨r', h1, h2⟩ := h.2
      exact ⟨r', by simpa [Canvas.syncOne] using h1, h2⟩

/-- C4 witness: after syncing the singleton collection `["a"]` no row
`"zzz"` exists, and a `syncOne` of `"a"` on a state holding row `"b"`
keeps that row. -/
theorem syncAll_deletes_syncOne_preserves_witness :
    ("zzz" ∉ [Canvas.exampleNoteItem].map Canvas.Item.id) ∧
    ((Canvas.syncAll 0 "s" (fun _ => none) [Canvas.exampleNoteItem]
        Canvas.initialState).2).rows.find? (fun x => x.id == "zzz") = none ∧
    (Canvas.projectRow 0 Canvas.exampleItemB ∈
      ((Canvas.syncOne 1 "s" Canvas.exampleNoteItem
        { target := some { id := "s", title := "T" },
          rows := [Canvas.projectRow 0 Canvas.exampleItemB] }).2).rows) := by
  refine ⟨by decide, ?_, ?_⟩
  · exact (syncAll_deletes_syncOne_preserves).1 0 "s" [Canvas.exampleNoteItem]
      Canvas.initialState "zzz" (by decide)
  · exact ((syncAll_deletes_syncOne_preserves).2 1 "s" Canvas.exampleNoteItem
      { target := some { id := "s", title := "T" },
        rows := [Canvas.projectRow 0 Canvas.exampleItemB] }
      (Canvas.projectRow 0 Canvas.exampleItemB) (by simp)).1 (by decide)

/-- C6.  The projection fills the four type-specific row fields according
to a fixed, ordered mapping determined solely by the item's variant tag
and payload — project fills field-1..field-4, entity only
field-1..field-3, note and chart only field-1 — and every slot unused by a
variant is left empty rather than reused. -/
theorem projection_fixed_variant_mapping :
    (∀ (now : Nat) (it : Canvas.Item) (d : Canvas.ProjectData),
        it.data = .project d →
        (Canvas.projectRow now it).field1 = d.company ∧
        (Canvas.projectRow now it).field2 = d.industry ∧
        (Canvas.projectRow now it).field3 = d.email ∧
        (Canvas.projectRow now it).field4 =
          Canvas.summarizeChecklist d.requirements) ∧
    (∀ (now : Nat) (it : Canvas.Item) (d : Canvas.EntityData),
        it.data = .entity d →
        (Canvas.projectRow now it).field1 = d.field1 ∧
        (Canvas.projectRow now it).field2 = d.field2 ∧
        (Canvas.projectRow now it).field3 = Canvas.joinTags d.field3 ∧
        (Canvas.projectRow now it).field4 = "") ∧
    (∀ (now : Nat) (it : Canvas.Item) (d : Canvas.NoteData),
        it.data = .note d →
        (Canvas.projectRow now it).field1 = d.field1.getD "" ∧
        (Canvas.projectRow now it).field2 = "" ∧
        (Canvas.projectRow now it).field3 = "" ∧
        (Canvas.projectRow now it).field4 = "") ∧
    (∀ (now : Nat) (it : Canvas.Item) (d : Canvas.ChartData),
        it.data = .chart d →
        (Canvas.projectRow now it).field1 = Canvas.summarizeMetrics d.field1 ∧
        (Canvas.projectRow now it).field2 = "" ∧
        (Canvas.projectRow now it).field3 = "" ∧
        (Canvas.projectRow now it).field4 = "") ∧
    (∀ (n m : Nat) (it1 it2 : Canvas.Item), it1.data = it2.data →
        (Canvas.projectRow n it1).field1 = (Canvas.projectRow m it2).field1 ∧
        (Canvas.projectRow n it1).field2 = (Canvas.projectRow m it2).field2 ∧
        (Canvas.projectRow n it1).field3 = (Canvas.projectRow m it2).field3 ∧
        (Canvas.projectRow n it1).field4 = (Canvas.projectRow m it2).field4) := by
  refine ⟨?_, ?_, ?_, ?_, ?_⟩
  · intro now it d h
    simp [Canvas.projectRow, Canvas.projFields, h]
  · intro now it d h
    simp [Canvas.projectRow, Canvas.projFields, h]
  · intro now it d h
    simp [Canvas.projectRow, Canvas.projFields, h]
  · intro now it d h
    simp [Canvas.projectRow, Canvas.projFields, h]
  · intro n m it1 it2 h
    simp [Canvas.projectRow, h]

/-- C6 witness: the example note fills only field-1 and leaves the other
slots empty. -/
theorem projection_fixed_variant_mapping_witness :
    Canvas.exampleNoteItem.data = .note { field1 := some "hello" } ∧
    ((Canvas.projectRow 0 Canvas.exampleNoteItem).field1 =
        (some "hello" : Option String).getD "" ∧
      (Canvas.projectRow 0 Canvas.exampleNoteItem).field2 = "" ∧
      (Canvas.projectRow 0 Canvas.exampleNoteItem).field3 = "" ∧
      (Canvas.projectRow 0 Canvas.exampleNoteItem).field4 = "") :=
  ⟨rfl, projection_fixed_variant_mapping.2.2.1 0 Canvas.exampleNoteItem
    { field1 := some "hello" } rfl⟩

/-- C8.  For the six page criteria (weights 20, 15, 20, 20, 15, 10,
summing to 100) and any scores in the range 0..10,
`calculateOverallScore` returns `Math.round` of the sum of
`score * weight / 100`, which always lies between 0 and 10 inclusive. -/
theorem overall_score_round_and_bounds (s1 s2 s3 s4 s5 s6 : ℚ)
    (h1 : 0 ≤ s1 ∧ s1 ≤ 10) (h2 : 0 ≤ s2 ∧ s2 ≤ 10) (h3 : 0 ≤ s3 ∧ s3 ≤ 10)
    (h4 : 0 ≤ s4 ∧ s4 ≤ 10) (h5 : 0 ≤ s5 ∧ s5 ≤ 10)
    (h6 : 0 ≤ s6 ∧ s6 ≤ 10) :
    Pitch.calculateOverallScore (Pitch.assessmentWithScores s1 s2 s3 s4 s5 s6) =
      Pitch.jsRound
        ((s1 * 20 + s2 * 15 + s3 * 20 + s4 * 20 + s5 * 15 + s6 * 10) / 100) ∧
    0 ≤ Pitch.calculateOverallScore
        (Pitch.assessmentWithScores s1 s2 s3 s4 s5 s6) ∧
    Pitch.calculateOverallScore (Pitch.assessmentWithScores s1 s2 s3 s4 s5 s6) ≤
      10 := by
  have heq : Pitch.calculateOverallScore
      (Pitch.assessmentWithScores s1 s2 s3 s4 s5 s6) =
      Pitch.jsRound
        ((s1 * 20 + s2 * 15 + s3 * 20 + s4 * 20 + s5 * 15 + s6 * 10) / 100) := by
    simp only [Pitch.calculateOverallScore, Pitch.assessmentWithScores,
      Pitch.initialAssessment, Pitch.initialCriteria, List.zipWith, List.foldl]
    congr 1
    ring
  refine ⟨heq, ?_, ?_⟩
  · rw [heq, Pitch.jsRound]
    apply Int.le_floor.mpr
    push_cast
    linarith [h1.1, h2.1, h3.1, h4.1, h5.1, h6.1]
  · rw [heq, Pitch.jsRound]
    have hlt : (⌊(s1 * 20 + s2 * 15 + s3 * 20 + s4 * 20 + s5 * 15 + s6 * 10) /
        100 + 1 / 2⌋ : ℤ) < 11 := by
      apply Int.floor_lt.mpr
      push_cast
      linarith [h1.2, h2.2, h3.2, h4.2, h5.2, h6.2]
    omega

/-- C8 witness: all six scores at 10 give the rounded sum and the bound
at exactly 10. -/
theorem overall_score_round_and_bounds_witness :
    ((0:ℚ) ≤ 10 ∧ (10:ℚ) ≤ 10) ∧
    Pitch.calculateOverallScore
        (Pitch.assessmentWithScores 10 10 10 10 10 10) ≤ 10 :=
  ⟨⟨by norm_num, le_refl 10⟩,
    (overall_score_round_and_bounds 10 10 10 10 10 10
      ⟨by norm_num, le_refl 10⟩ ⟨by norm_num, le_refl 10⟩
      ⟨by norm_num, le_refl 10⟩ ⟨by norm_num, le_refl 10⟩
      ⟨by norm_num, le_refl 10⟩ ⟨by norm_num, le_refl 10⟩).2.2⟩

/-- C9.  `updateScore` changes only the matching criterion's score and
the overall score: every other criterion (with its category, criteria
text, description and weight) and every other assessment field is left
unchanged, and the stored overall score is computed from the criteria as
they were before this update (the closed-over pre-update state). -/
theorem updateScore_frame (prev : Pitch.PitchAssessment) (cid : String)
    (s : ℚ) :
    (Pitch.updateScore prev cid s).sellerId = prev.sellerId ∧
    (Pitch.updateScore prev cid s).sellerName = prev.sellerName ∧
    (Pitch.updateScore prev cid s).companyId = prev.companyId ∧
    (Pitch.updateScore prev cid s).companyName = prev.companyName ∧
    (Pitch.updateScore prev cid s).date = prev.date ∧
    (Pitch.updateScore prev cid s).feedback = prev.feedback ∧
    (Pitch.updateScore prev cid s).recommendation = prev.recommendation ∧
    (Pitch.updateScore prev cid s).overallScore =
      Pitch.calculateOverallScore prev ∧
    (Pitch.updateScore prev cid s).criteria.length = prev.criteria.length ∧
    (∀ (i : Nat) (c : Pitch.AssessmentCriteria), prev.criteria[i]? = some c →
      ∃ c', (Pitch.updateScore prev cid s).criteria[i]? = some c' ∧
        c'.id = c.id ∧ c'.category = c.category ∧ c'.criteria = c.criteria ∧
        c'.description = c.description ∧ c'.weight = c.weight ∧
        (c.id ≠ cid → c'.score = c.score) ∧ (c.id = cid → c'.score = s)) := by
  refine ⟨rfl, rfl, rfl, rfl, rfl, rfl, rfl, rfl, by simp [Pitch.updateScore], ?_⟩
  intro i c hc
  refine ⟨if c.id = cid then { c with score := s } else c, ?_, ?_⟩
  · simp [Pitch.updateScore, List.getElem?_map, hc]
  · by_cases h : c.id = cid <;> simp [h]

/-- C9 witness: updating criterion `"3"` to 7 on the initial assessment
leaves the third criterion's descriptive fields and weight unchanged and
sets its score to 7. -/
theorem updateScore_frame_witness :
    (Pitch.initialAssessment "1" "2025-01-01").criteria[2]? =
      some { id := "3", category := "Needs Analysis",
             criteria := "Understanding Customer Needs",
             description :=
               "Asks relevant questions and identifies pain points accurately",
             score := 0, weight := 20 } ∧
    ∃ c', (Pitch.updateScore (Pitch.initialAssessment "1" "2025-01-01") "3"
        7).criteria[2]? = some c' ∧
      c'.id = "3" ∧ c'.category = "Needs Analysis" ∧
      c'.criteria = "Understanding Customer Needs" ∧
      c'.description =
        "Asks relevant questions and identifies pain points accurately" ∧
      c'.weight = 20 ∧
      (("3" : String) ≠ "3" → c'.score = 0) ∧ (("3" : String) = "3" → c'.score = 7) :=
  ⟨rfl, (updateScore_frame (Pitch.initialAssessment "1" "2025-01-01") "3"
    7).2.2.2.2.2.2.2.2.2 2
    { id := "3", category := "Needs Analysis",
      criteria := "Understanding Customer Needs",
      description :=
        "Asks relevant questions and identifies pain points accurately",
      score := 0, weight := 20 } rfl⟩

/-- C10.  For every criteria string, the `find_companies` handler leaves
the hard-coded four-company list unchanged and returns the message
`Found N companies matching "criteria"`, where N counts exactly the
companies whose industry or name contains the criteria as a
case-insensitive substring. -/
theorem find_companies_spec (criteria : String) :
    (Companies.findCompaniesHandler Companies.initialCompanies criteria).1 =
      Companies.initialCompanies ∧
    (Companies.findCompaniesHandler Companies.initialCompanies criteria).2 =
      "Found " ++ toString (Companies.initialCompanies.countP
          (Companies.matchesCriteria criteria)) ++
        " companies matching \"" ++ criteria ++ "\"" := by
  refine ⟨rfl, ?_⟩
  simp [Companies.findCompaniesHandler, List.countP_eq_length_filter]
